import Mathlib

/-!
Verification of the waveform_js lookahead pattern scheduler.

This file is a shallow embedding of the scheduler found in
`src/scheduler.ts` (the TypeScript, Hap-based scheduler), the tempo
utilities in `src/utils/timing.ts`, the Hap accessors in `src/types.ts`,
and the per-event dispatch guard of the legacy JavaScript scheduler in
`src/scheduler.js`.

Modelling conventions:
* JavaScript numbers are modelled as rationals (ℚ); `Math.floor` becomes
  `Int.floor`.
* `throw new Error(msg)` in a synchronous method is modelled by
  `Except String` with the thrown message; a thrown error produces no new
  state, matching the fact that the code throws before mutating anything.
* JavaScript null/undefined values are modelled by `Option`.
* A pattern query function that may throw is modelled as a Lean function
  returning `Except Unit _`; `Except.error ()` models a thrown exception,
  which the scheduler catches.
* The external play callback is modelled as `playFn : Nat → ℚ → Except Unit Unit`
  (an opaque payload and an absolute time); its result is recorded in the
  trace but — exactly as in the code, which wraps the call in try/catch —
  never influences control flow.
* The observable behaviour of a tick (which per-cycle callbacks fire, which
  per-event callbacks fire, which play calls happen, in which order) is
  recorded as a list of `Action`s.
-/

namespace Waveform

/-- A time span, from `types.ts` (`TimeSpan { begin; end }`). The `end`
field is renamed `end'` because `end` is a Lean keyword. -/
structure TimeSpan where
  begin : ℚ
  end' : ℚ
deriving DecidableEq, Repr

/-- A Hap as it can actually reach the dispatch loop of `scheduler.ts`.
The static-pattern path of `schedulePattern` accepts any array without
inspecting its elements, so at dispatch time `hap.part` may be absent
(undefined): both `whole` and `part` are `Option`s here, and the dispatch
guard `if (!hap || !hap.part) return` is modelled over them. The sound
parameter payload `value` is opaque to the scheduler and modelled as a
`Nat` identifier. -/
structure RawHap where
  whole : Option TimeSpan
  part : Option TimeSpan
  value : Nat
deriving DecidableEq, Repr

/-- `getHapOnset` from `types.ts`: `hap.whole?.begin ?? hap.part.begin`.
It is only reached once the dispatch guard has established that `part`
is present, so it takes the present part explictly. -/
def getHapOnset (whole : Option TimeSpan) (part : TimeSpan) : ℚ :=
  match whole with
  | some w => w.begin
  | none => part.begin

/-- `bpmToCps` from `utils/timing.ts`: `bpm / 60 / 4`. -/
def bpmToCps (bpm : ℚ) : ℚ := bpm / 60 / 4

/-- `cpsToBpm` from `utils/timing.ts`: `cps * 60 * 4`. -/
def cpsToBpm (cps : ℚ) : ℚ := cps * 60 * 4

/-- A registered pattern (`interface Pattern` in `scheduler.ts`):
`queryFn` or `haps`, the unused one `null`. A query function takes the
integer cycle number and either returns a hap array or throws
(`Except.error ()`). -/
structure Pattern where
  queryFn : Option (ℤ → Except Unit (List (Option RawHap)))
  haps : Option (List (Option RawHap))

/-- The second argument of `schedulePattern(id, hapsOrQueryFn)` as seen by
the JavaScript runtime-type tests: a function, an array, or anything
else. -/
inductive PatternInput where
  | fn (f : ℤ → Except Unit (List (Option RawHap)))
  | arr (hs : List (Option RawHap))
  | other

/-- The pattern registry: a `Map<string, Pattern>` modelled as an
insertion-ordered association list. -/
abbrev Registry : Type := List (String × Pattern)

/-- JS `Map.prototype.set`: replace in place if the key exists (keeping
insertion order), otherwise append. -/
def mapSet (ps : Registry) (id : String) (p : Pattern) : Registry :=
  if ps.any (fun kv => kv.1 = id) then
    ps.map (fun kv => if kv.1 = id then (id, p) else kv)
  else
    ps ++ [(id, p)]

/-- JS `Map.prototype.get` on the registry. -/
def mapGet (ps : Registry) (id : String) : Option Pattern :=
  (ps.find? (fun kv => kv.1 = id)).map (fun kv => kv.2)

/-- `schedulePattern` from `scheduler.ts` (lines 130-142): empty/missing
id throws; a function registers `{queryFn, haps: null}`; an array
registers `{queryFn: null, haps}` (overwriting any entry with the same
id); anything else throws. A thrown error leaves the registry untouched
(the code throws before calling `patterns.set`). -/
def schedulePattern (ps : Registry) (id : String) (content : PatternInput) :
    Except String Registry :=
  if id = "" then
    Except.error "Pattern ID is required"
  else
    match content with
    | PatternInput.fn f => Except.ok (mapSet ps id ⟨some f, none⟩)
    | PatternInput.arr hs => Except.ok (mapSet ps id ⟨none, some hs⟩)
    | PatternInput.other =>
        Except.error "Pattern must be an array of haps or a query function"

/-- `updatePattern` from `scheduler.ts` (lines 144-146): a direct call to
`schedulePattern`. -/
def updatePattern (ps : Registry) (id : String) (content : PatternInput) :
    Except String Registry :=
  schedulePattern ps id content

/-- Scheduler configuration (`SchedulerConfig`, with defaults from
`DEFAULT_CONFIG`). `scheduleInterval` (ms between host-timer ticks) does
not influence the semantics of a single tick. -/
structure SchedulerConfig where
  lookahead : ℚ
  scheduleInterval : ℚ
  cps : ℚ
deriving DecidableEq, Repr

/-- `DEFAULT_CONFIG` from `scheduler.ts`. -/
def DEFAULT_CONFIG : SchedulerConfig :=
  { lookahead := 1/10, scheduleInterval := 25, cps := 1/2 }

/-- The mutable state captured by the `createScheduler` closure:
`cps`, `startTime`, `lastScheduledCycle`, `patterns`, `isRunning`. -/
structure SchedulerState where
  cps : ℚ
  startTime : Option ℚ
  lastScheduledCycle : ℤ
  patterns : Registry
  isRunning : Bool

/-- The state of a freshly constructed scheduler under configuration
`cfg`. -/
def initialState (cfg : SchedulerConfig) : SchedulerState :=
  { cps := cfg.cps, startTime := none, lastScheduledCycle := -1,
    patterns := [], isRunning := false }

/-- `getCps`. -/
def getCps (s : SchedulerState) : ℚ := s.cps

/-- `setCps` from `scheduler.ts` (lines 105-110): `newCps <= 0` throws
"CPS must be positive", otherwise the stored cps is replaced. -/
def setCps (s : SchedulerState) (newCps : ℚ) : Except String SchedulerState :=
  if newCps ≤ 0 then
    Except.error "CPS must be positive"
  else
    Except.ok { s with cps := newCps }

/-- `getCurrentCycle` from `scheduler.ts` (lines 116-122): 0 when not
running (or no start time recorded); otherwise
`(clockNow - startTime) * cps`, `clockNow` being
`audioContext.currentTime`. -/
def getCurrentCycle (s : SchedulerState) (clockNow : ℚ) : ℚ :=
  match s.isRunning, s.startTime with
  | true, some st => (clockNow - st) * s.cps
  | _, _ => 0

/-- `getCurrentCycleNumber`: `Math.floor(getCurrentCycle())`. -/
def getCurrentCycleNumber (s : SchedulerState) (clockNow : ℚ) : ℤ :=
  ⌊getCurrentCycle s clockNow⌋

/-- One observable action of a tick: a per-cycle callback firing, a
per-event (onHap) callback firing, or a play-callback invocation (`ok`
records whether the play callback returned normally; the scheduler
catches the exception either way). -/
inductive Action where
  | cycleCb (c : ℤ)
  | hapCb (hap : RawHap) (time : ℚ) (c : ℤ)
  | play (params : Nat) (time : ℚ) (ok : Bool)
deriving DecidableEq, Repr

/-- The body of the `haps.forEach(hap => ...)` loop of
`scheduleHapsForCycle` (`scheduler.ts` lines 186-210) for one array
entry: skip null entries and entries without a `part`; compute the onset
via `getHapOnset`; re-base onsets lying in `[cycle, cycle+1)`
(`isAbsolute`); compute the absolute start time; silently drop it if
that time is strictly before the current clock reading; otherwise fire
the per-event callbacks and then the play callback. -/
def dispatchHap (playFn : Nat → ℚ → Except Unit Unit)
    (cycleStartTime cycleDuration clockNow : ℚ) (cycle : ℤ)
    (oh : Option RawHap) : List Action :=
  match oh with
  | none => []
  | some hap =>
    match hap.part with
    | none => []
    | some part =>
      let onset := getHapOnset hap.whole part
      let isAbsolute := (cycle : ℚ) ≤ onset ∧ onset < (cycle : ℚ) + 1
      let relativeOnset := if isAbsolute then onset - (cycle : ℚ) else onset
      let hapStartTime := cycleStartTime + relativeOnset * cycleDuration
      if hapStartTime < clockNow then []
      else
        [Action.hapCb hap hapStartTime cycle,
         Action.play hap.value hapStartTime ((playFn hap.value hapStartTime).toBool)]

/-- Resolving the hap list of one pattern for a cycle (`scheduler.ts`
lines 171-184): call the query function — an exception is caught and the
pattern skipped (`none`) — or take the static list; a non-array resolves
to `none` and the pattern is skipped. -/
def resolveHaps (cycle : ℤ) (p : Pattern) : Option (List (Option RawHap)) :=
  match p.queryFn with
  | some f =>
    match f cycle with
    | Except.ok hs => some hs
    | Except.error _ => none
  | none => p.haps

/-- The per-pattern body of the `patterns.forEach` loop of
`scheduleHapsForCycle`: resolve the haps, then dispatch each entry in
order. -/
def patternActions (playFn : Nat → ℚ → Except Unit Unit)
    (cycleStartTime cycleDuration clockNow : ℚ) (cycle : ℤ)
    (p : Pattern) : List Action :=
  match resolveHaps cycle p with
  | none => []
  | some hs => hs.flatMap (dispatchHap playFn cycleStartTime cycleDuration clockNow cycle)

/-- `scheduleHapsForCycle` from `scheduler.ts` (lines 164-212): nothing
happens without a start time; otherwise `cycleStartTime = startTime +
cycle / cps` and `cycleDuration = 1 / cps`, and every registered pattern
is processed in registration order. -/
def scheduleHapsForCycle (playFn : Nat → ℚ → Except Unit Unit)
    (s : SchedulerState) (clockNow : ℚ) (cycle : ℤ) : List Action :=
  match s.startTime with
  | none => []
  | some st =>
    (s.patterns.map (fun kv =>
      patternActions playFn (st + (cycle : ℚ) / s.cps) (1 / s.cps) clockNow cycle kv.2)).flatten

/-- The `for` loop of `tick` (`scheduler.ts` lines 223-228): cycles from
`Math.floor(Math.max(currentCyclePos, lastScheduledCycle + 1))` up to
`Math.floor(lookaheadCyclePos)`, keeping those above the watermark. -/
def cyclesToSchedule (currentCyclePos lookaheadCyclePos : ℚ) (last : ℤ) : List ℤ :=
  let lo : ℤ := ⌊max currentCyclePos ((last : ℚ) + 1)⌋
  let hi : ℤ := ⌊lookaheadCyclePos⌋
  ((List.range (hi + 1 - lo).toNat).map (fun i : ℕ => lo + (i : ℤ))).filter
    (fun c => decide (last < c))

/-- `tick` from `scheduler.ts` (lines 214-235): a no-op unless running
with a start time; otherwise compute the cycle range from the clock
reading, and for each cycle in increasing order fire the per-cycle
callbacks, schedule the cycle's haps, and set the watermark to that
cycle. Returns the new state and the trace of actions. -/
def tick (cfg : SchedulerConfig) (playFn : Nat → ℚ → Except Unit Unit)
    (s : SchedulerState) (clockNow : ℚ) : SchedulerState × List Action :=
  match s.isRunning, s.startTime with
  | true, some st =>
    let now := clockNow
    let lookaheadEnd := now + cfg.lookahead
    let currentCyclePos := (now - st) * s.cps
    let lookaheadCyclePos := (lookaheadEnd - st) * s.cps
    (cyclesToSchedule currentCyclePos lookaheadCyclePos s.lastScheduledCycle).foldl
      (fun p c =>
        ({ p.1 with lastScheduledCycle := c },
         p.2 ++ (Action.cycleCb c :: scheduleHapsForCycle playFn p.1 clockNow c)))
      (s, [])
  | _, _ => (s, [])

/-- The state mutation performed by an effective `start()` (`scheduler.ts`
lines 241-246, before the on-start callbacks and the immediate first
tick): a no-op when already running, otherwise set running, anchor
`startTime` at the clock reading, and reset the watermark to -1. -/
def startState (s : SchedulerState) (clockNow : ℚ) : SchedulerState :=
  if s.isRunning then s
  else { s with isRunning := true, startTime := some clockNow, lastScheduledCycle := -1 }

/-- `start()` in full (`scheduler.ts` lines 241-252): the state
transition followed by the immediate first tick (the periodic interval
only re-invokes `tick`, which the trace semantics models as explicit
tick calls). -/
def start (cfg : SchedulerConfig) (playFn : Nat → ℚ → Except Unit Unit)
    (s : SchedulerState) (clockNow : ℚ) : SchedulerState × List Action :=
  if s.isRunning then (s, [])
  else tick cfg playFn (startState s clockNow) clockNow

/-- A sequence of ticks at the given clock readings, accumulating the
trace. -/
def runTicks (cfg : SchedulerConfig) (playFn : Nat → ℚ → Except Unit Unit)
    (s : SchedulerState) : List ℚ → SchedulerState × List Action
  | [] => (s, [])
  | t :: ts =>
    let p := tick cfg playFn s t
    let q := runTicks cfg playFn p.1 ts
    (q.1, p.2 ++ q.2)

/-- The cycle indices of the per-cycle callback firings in a trace. -/
def procCycles (acts : List Action) : List ℤ :=
  acts.filterMap (fun a =>
    match a with
    | Action.cycleCb c => some c
    | _ => none)

/-- A trace action with the play-callback outcome erased: what was
invoked, independently of whether the callee threw. -/
def eraseOk (a : Action) : Action :=
  match a with
  | Action.play p t _ => Action.play p t true
  | a => a

/-- `createCallbackRegistry().fire` (`scheduler.ts` lines 50-54): every
registered callback is invoked, each wrapped in its own try/catch; the
result list records, for each callback in registration order, whether it
returned normally. -/
def fireRegistry {α : Type} (cbs : List (α → Except Unit Unit)) (a : α) : List Bool :=
  cbs.map (fun cb => (cb a).toBool)

/-- The value of `lastScheduledCycle` after the per-cycle loop assigns it
each element of `l` in turn, starting from `init`. -/
def wmAfter (l : List ℤ) (init : ℤ) : ℤ :=
  l.foldl (fun _ c => c) init

/-- The cycle range a running tick processes, in terms of the state and
clock reading. -/
def tickCycles (cfg : SchedulerConfig) (s : SchedulerState) (st now : ℚ) : List ℤ :=
  cyclesToSchedule ((now - st) * s.cps) ((now + cfg.lookahead - st) * s.cps)
    s.lastScheduledCycle

/-- The absolute start time `scheduleHapsForCycle` computes for a hap with
a present `part`: `cycleStartTime + relativeOnset * cycleDuration`, with
the onset re-based when it falls within `[cycle, cycle + 1)`. -/
def hapTimeOf (cst cd : ℚ) (c : ℤ) (hap : RawHap) (part : TimeSpan) : ℚ :=
  cst +
    (if (c : ℚ) ≤ getHapOnset hap.whole part ∧ getHapOnset hap.whole part < (c : ℚ) + 1
     then getHapOnset hap.whole part - (c : ℚ)
     else getHapOnset hap.whole part) * cd

/-- The state mutation performed by `stop()` (`scheduler.ts` lines
254-265): a no-op when already stopped, otherwise clear the running flag
(patterns, tempo and the anchor are untouched). -/
def stopState (s : SchedulerState) : SchedulerState :=
  if s.isRunning then { s with isRunning := false } else s

/-- Post-state of a `setCps` attempt as the caller observes it: the new
state on success, the unchanged original state when the call threw
(the method throws before assigning). -/
def afterSetCps (s : SchedulerState) (x : ℚ) : SchedulerState :=
  match setCps s x with
  | Except.ok s' => s'
  | Except.error _ => s

/-- An event as the legacy `scheduler.js` dispatch loop sees it: `start`
is `none` when the `start` property is absent or not a number (the code
tests `typeof event.start !== 'number'`); the payload is opaque. -/
structure JsEvent where
  start : Option ℚ
  params : Nat
deriving DecidableEq, Repr

/-- An observable action of the JS scheduler's event dispatch. -/
inductive JsAction where
  | eventCb (e : JsEvent) (time : ℚ) (c : ℤ)
  | play (params : Nat) (time : ℚ)
deriving DecidableEq, Repr

/-- The body of the per-event loop of `_scheduleEventsForCycle`
(`scheduler.js` lines 404-433): skip null entries and entries without a
numeric `start`; compute `cycleStartTime + start * cycleDuration`; drop
the event silently if that time is before the clock reading; otherwise
fire the event callbacks and then the play callback. -/
def jsDispatchEvent (cst cd now : ℚ) (c : ℤ) (oe : Option JsEvent) :
    List JsAction :=
  match oe with
  | none => []
  | some e =>
    match e.start with
    | none => []
    | some s0 =>
      let t := cst + s0 * cd
      if t < now then []
      else [JsAction.eventCb e t c, JsAction.play e.params t]

/-- A spec-style `{start, params}` event. -/
structure SpecEvent where
  start : ℚ
  params : Nat
deriving DecidableEq, Repr

/-- A `{start, params}` object as the Hap-based dispatch loop of
`scheduler.ts` reads it: the object has no `whole` and no `part`
property, so both accessors yield undefined (`none`); the `start` field
is never read by that loop. The payload is carried as the opaque value. -/
def rawHapOfSpecEvent (e : SpecEvent) : RawHap :=
  ⟨none, none, e.params⟩

/-! ### Concrete sample data used by witness theorems -/

/-- A play callback that always succeeds. -/
def okPlay : Nat → ℚ → Except Unit Unit := fun _ _ => Except.ok ()

/-- A hap covering one whole cycle with onset 0 and payload 7. -/
def sampleHap : RawHap := ⟨none, some ⟨0, 1⟩, 7⟩

/-- A static one-hap pattern. -/
def samplePattern : Pattern := ⟨none, some [some sampleHap]⟩

/-- A running scheduler at cps 1, anchored at clock time 0, with one
registered pattern. -/
def sampleState : SchedulerState :=
  { cps := 1, startTime := some 0, lastScheduledCycle := -1,
    patterns := [("X", samplePattern)], isRunning := true }

/-- A tight configuration used by witnesses: no lookahead, cps 1. -/
def wCfg : SchedulerConfig := { lookahead := 0, scheduleInterval := 25, cps := 1 }

/-- A generator that always throws. -/
def failQuery : ℤ → Except Unit (List (Option RawHap)) := fun _ => Except.error ()

/-- A registered pattern whose generator always throws. -/
def failPattern : Pattern := ⟨some failQuery, none⟩

/-! ### Lemmas about the cycle range of a tick -/

theorem mem_cyclesToSchedule {pos lpos : ℚ} {last c : ℤ} :
    c ∈ cyclesToSchedule pos lpos last ↔
      ⌊max pos ((last : ℚ) + 1)⌋ ≤ c ∧ c ≤ ⌊lpos⌋ ∧ last < c := by
  unfold cyclesToSchedule
  constructor
  · intro h
    have h1 := List.mem_filter.mp h
    obtain ⟨i, hi, hc⟩ := List.mem_map.mp h1.1
    have hi' := Int.lt_toNat.mp (List.mem_range.mp hi)
    have hlt : last < c := by simpa using h1.2
    omega
  · rintro ⟨hlo, hhi, hlt⟩
    refine List.mem_filter.mpr ⟨List.mem_map.mpr
      ⟨(c - ⌊max pos ((last : ℚ) + 1)⌋).toNat, List.mem_range.mpr ?_, ?_⟩, by simpa using hlt⟩
    · omega
    · omega

theorem pairwise_cyclesToSchedule {pos lpos : ℚ} {last : ℤ} :
    List.Pairwise (· < ·) (cyclesToSchedule pos lpos last) := by
  unfold cyclesToSchedule
  refine List.Pairwise.filter _ ?_
  rw [List.pairwise_map]
  exact (List.pairwise_lt_range _).imp (fun h => by omega)

theorem cyclesToSchedule_gt_last {pos lpos : ℚ} {last c : ℤ}
    (h : c ∈ cyclesToSchedule pos lpos last) : last < c :=
  (mem_cyclesToSchedule.mp h).2.2

/-- The lower bound of the cycle range already sits strictly above the
watermark (`Math.max(currentCyclePos, lastScheduledCycle + 1)` floors to at
least `lastScheduledCycle + 1`), so the `cycle > lastScheduledCycle` filter
in the loop never removes anything. -/
theorem floor_max_ge_last (pos : ℚ) (last : ℤ) :
    last + 1 ≤ ⌊max pos ((last : ℚ) + 1)⌋ := by
  have h : ((last + 1 : ℤ) : ℚ) ≤ max pos ((last : ℚ) + 1) := by
    push_cast
    exact le_max_right _ _
  calc last + 1 = ⌊((last + 1 : ℤ) : ℚ)⌋ := (Int.floor_intCast _).symm
    _ ≤ ⌊max pos ((last : ℚ) + 1)⌋ := Int.floor_le_floor h

/-! ### The watermark after a run of cycles -/

theorem wmAfter_nil (init : ℤ) : wmAfter [] init = init := rfl

theorem wmAfter_cons (c : ℤ) (l : List ℤ) (init : ℤ) :
    wmAfter (c :: l) init = wmAfter l c := rfl

theorem wmAfter_bounds : ∀ (l : List ℤ) (init : ℤ),
    List.Pairwise (· < ·) l → (∀ c ∈ l, init < c) →
    init ≤ wmAfter l init ∧ ∀ c ∈ l, c ≤ wmAfter l init
  | [], init, _, _ => ⟨le_refl _, by simp⟩
  | c :: l, init, h, hgt => by
    have hp := List.pairwise_cons.mp h
    have ih := wmAfter_bounds l c hp.2 hp.1
    rw [wmAfter_cons]
    refine ⟨le_trans (le_of_lt (hgt c (by simp))) ih.1, ?_⟩
    intro x hx
    rcases List.mem_cons.mp hx with rfl | hx
    · exact ih.1
    · exact ih.2 x hx

/-! ### Structure of a tick -/

theorem scheduleHapsForCycle_watermark_irrel (playFn : Nat → ℚ → Except Unit Unit)
    (s : SchedulerState) (w : ℤ) (now : ℚ) (c : ℤ) :
    scheduleHapsForCycle playFn { s with lastScheduledCycle := w } now c =
      scheduleHapsForCycle playFn s now c := rfl

theorem tick_loop_eq (playFn : Nat → ℚ → Except Unit Unit) (now : ℚ) :
    ∀ (cycles : List ℤ) (s : SchedulerState) (acts : List Action),
    cycles.foldl
      (fun p c =>
        ({ p.1 with lastScheduledCycle := c },
         p.2 ++ (Action.cycleCb c :: scheduleHapsForCycle playFn p.1 now c)))
      (s, acts) =
    ({ s with lastScheduledCycle := wmAfter cycles s.lastScheduledCycle },
     acts ++ cycles.flatMap
       (fun c => Action.cycleCb c :: scheduleHapsForCycle playFn s now c))
  | [], s, acts => by simp [wmAfter]
  | c :: cycles, s, acts => by
    rw [List.foldl_cons, tick_loop_eq playFn now cycles { s with lastScheduledCycle := c }]
    simp [wmAfter_cons, scheduleHapsForCycle_watermark_irrel, wmAfter]

theorem tick_spec (cfg : SchedulerConfig) (playFn : Nat → ℚ → Except Unit Unit)
    (s : SchedulerState) (now st : ℚ) (hrun : s.isRunning = true)
    (hst : s.startTime = some st) :
    tick cfg playFn s now =
      ({ s with lastScheduledCycle :=
          wmAfter (tickCycles cfg s st now) s.lastScheduledCycle },
       (tickCycles cfg s st now).flatMap
         (fun c => Action.cycleCb c :: scheduleHapsForCycle playFn s now c)) := by
  have h0 : tick cfg playFn s now =
      (cyclesToSchedule ((now - st) * s.cps) ((now + cfg.lookahead - st) * s.cps)
        s.lastScheduledCycle).foldl
        (fun p c =>
          ({ p.1 with lastScheduledCycle := c },
           p.2 ++ (Action.cycleCb c :: scheduleHapsForCycle playFn p.1 now c)))
        (s, []) := by
    unfold tick
    rw [hrun, hst]
  rw [h0, tick_loop_eq]
  simp [tickCycles]

theorem tick_stuck (cfg : SchedulerConfig) (playFn : Nat → ℚ → Except Unit Unit)
    (s : SchedulerState) (now : ℚ)
    (h : s.isRunning = false ∨ s.startTime = none) :
    tick cfg playFn s now = (s, []) := by
  unfold tick
  rcases h with h | h
  · rw [h]
  · rw [h]
    rcases hrun : s.isRunning <;> simp

/-! ### Shapes of dispatched actions -/

theorem dispatchHap_none (playFn : Nat → ℚ → Except Unit Unit) (cst cd now : ℚ) (c : ℤ) :
    dispatchHap playFn cst cd now c none = [] := rfl

theorem dispatchHap_no_part (playFn : Nat → ℚ → Except Unit Unit) (cst cd now : ℚ)
    (c : ℤ) (hap : RawHap) (h : hap.part = none) :
    dispatchHap playFn cst cd now c (some hap) = [] := by
  rcases hap with ⟨whole, p0, v⟩
  obtain rfl : p0 = none := h
  rfl

theorem dispatchHap_of_part (playFn : Nat → ℚ → Except Unit Unit) (cst cd now : ℚ)
    (c : ℤ) (hap : RawHap) (part : TimeSpan) (h : hap.part = some part) :
    dispatchHap playFn cst cd now c (some hap) =
      if hapTimeOf cst cd c hap part < now then []
      else
        [Action.hapCb hap (hapTimeOf cst cd c hap part) c,
         Action.play hap.value (hapTimeOf cst cd c hap part)
           ((playFn hap.value (hapTimeOf cst cd c hap part)).toBool)] := by
  rcases hap with ⟨whole, p0, v⟩
  obtain rfl : p0 = some part := h
  rfl

theorem mem_dispatchHap {playFn : Nat → ℚ → Except Unit Unit} {cst cd now : ℚ}
    {c : ℤ} {oh : Option RawHap} {a : Action}
    (hmem : a ∈ dispatchHap playFn cst cd now c oh) :
    ∃ hap part, oh = some hap ∧ hap.part = some part ∧
      now ≤ hapTimeOf cst cd c hap part ∧
      (a = Action.hapCb hap (hapTimeOf cst cd c hap part) c ∨
       a = Action.play hap.value (hapTimeOf cst cd c hap part)
             ((playFn hap.value (hapTimeOf cst cd c hap part)).toBool)) := by
  rcases oh with _ | hap
  · simp [dispatchHap_none] at hmem
  · rcases hpart : hap.part with _ | part
    · simp [dispatchHap_no_part playFn cst cd now c hap hpart] at hmem
    · rw [dispatchHap_of_part playFn cst cd now c hap part hpart] at hmem
      by_cases hlt : hapTimeOf cst cd c hap part < now
      · simp [hlt] at hmem
      · rw [if_neg hlt] at hmem
        exact ⟨hap, part, rfl, hpart, not_lt.mp hlt, by simpa using hmem⟩

theorem mem_scheduleHapsForCycle {playFn : Nat → ℚ → Except Unit Unit}
    {s : SchedulerState} {now : ℚ} {c : ℤ} {a : Action}
    (hmem : a ∈ scheduleHapsForCycle playFn s now c) :
    ∃ st, s.startTime = some st ∧ ∃ kv ∈ s.patterns, ∃ hs,
      resolveHaps c kv.2 = some hs ∧ ∃ oh ∈ hs,
        a ∈ dispatchHap playFn (st + (c : ℚ) / s.cps) (1 / s.cps) now c oh := by
  unfold scheduleHapsForCycle at hmem
  rcases hst : s.startTime with _ | st
  · rw [hst] at hmem
    simp at hmem
  · rw [hst] at hmem
    obtain ⟨l, hl, ha⟩ := List.mem_flatten.mp hmem
    obtain ⟨kv, hkv, heq⟩ := List.mem_map.mp hl
    rw [← heq] at ha
    unfold patternActions at ha
    rcases hres : resolveHaps c kv.2 with _ | hs
    · rw [hres] at ha
      simp at ha
    · rw [hres] at ha
      obtain ⟨oh, hoh, ha⟩ := List.mem_flatMap.mp ha
      exact ⟨st, rfl, kv, hkv, hs, hres, oh, hoh, ha⟩

theorem mem_scheduleHapsForCycle_intro {playFn : Nat → ℚ → Except Unit Unit}
    {s : SchedulerState} {now st : ℚ} {c : ℤ} {a : Action} {kv : String × Pattern}
    {hs : List (Option RawHap)} {oh : Option RawHap}
    (hst : s.startTime = some st) (hkv : kv ∈ s.patterns)
    (hres : resolveHaps c kv.2 = some hs) (hoh : oh ∈ hs)
    (ha : a ∈ dispatchHap playFn (st + (c : ℚ) / s.cps) (1 / s.cps) now c oh) :
    a ∈ scheduleHapsForCycle playFn s now c := by
  unfold scheduleHapsForCycle
  rw [hst]
  apply List.mem_flatten.mpr
  refine ⟨patternActions playFn (st + (c : ℚ) / s.cps) (1 / s.cps) now c kv.2,
    List.mem_map.mpr ⟨kv, hkv, rfl⟩, ?_⟩
  unfold patternActions
  rw [hres]
  exact List.mem_flatMap.mpr ⟨oh, hoh, ha⟩

/-! ### procCycles facts -/

theorem procCycles_append (l₁ l₂ : List Action) :
    procCycles (l₁ ++ l₂) = procCycles l₁ ++ procCycles l₂ :=
  List.filterMap_append _ _ _

theorem procCycles_scheduleHapsForCycle (playFn : Nat → ℚ → Except Unit Unit)
    (s : SchedulerState) (now : ℚ) (c : ℤ) :
    procCycles (scheduleHapsForCycle playFn s now c) = [] := by
  unfold procCycles
  rw [List.filterMap_eq_nil_iff]
  intro a ha
  obtain ⟨st, hst, kv, hkv, hs, hres, oh, hoh, hd⟩ := mem_scheduleHapsForCycle ha
  obtain ⟨hap, part, hoh', hpart, hle, hshape | hshape⟩ := mem_dispatchHap hd
  · subst hshape
    rfl
  · subst hshape
    rfl

theorem procCycles_flatMap_blocks (g : ℤ → List Action)
    (hg : ∀ c, procCycles (g c) = []) :
    ∀ l : List ℤ, procCycles (l.flatMap (fun c => Action.cycleCb c :: g c)) = l
  | [] => rfl
  | c :: l => by
    rw [List.flatMap_cons, List.cons_append, show procCycles = List.filterMap _ from rfl,
      List.filterMap_cons]
    simp only
    rw [List.filterMap_append]
    have h1 : List.filterMap _ (g c) = procCycles (g c) := rfl
    rw [h1, hg c]
    have h2 : List.filterMap _ (l.flatMap (fun c => Action.cycleCb c :: g c)) =
        procCycles (l.flatMap (fun c => Action.cycleCb c :: g c)) := rfl
    rw [h2, procCycles_flatMap_blocks g hg l]
    rfl

theorem procCycles_tick (cfg : SchedulerConfig) (playFn : Nat → ℚ → Except Unit Unit)
    (s : SchedulerState) (now st : ℚ) (hrun : s.isRunning = true)
    (hst : s.startTime = some st) :
    procCycles (tick cfg playFn s now).2 = tickCycles cfg s st now := by
  rw [tick_spec cfg playFn s now st hrun hst]
  exact procCycles_flatMap_blocks _
    (fun c => procCycles_scheduleHapsForCycle playFn s now c) _

/-! ### Per-tick and per-run watermark invariants -/

theorem tick_inv (cfg : SchedulerConfig) (playFn : Nat → ℚ → Except Unit Unit)
    (s : SchedulerState) (now : ℚ) :
    List.Pairwise (· < ·) (procCycles (tick cfg playFn s now).2) ∧
    (∀ c ∈ procCycles (tick cfg playFn s now).2,
      s.lastScheduledCycle < c ∧ c ≤ (tick cfg playFn s now).1.lastScheduledCycle) ∧
    s.lastScheduledCycle ≤ (tick cfg playFn s now).1.lastScheduledCycle := by
  rcases hrun : s.isRunning with _ | _
  · rw [tick_stuck cfg playFn s now (Or.inl hrun)]
    exact ⟨List.Pairwise.nil, by simp [procCycles], le_refl _⟩
  · rcases hst : s.startTime with _ | st
    · rw [tick_stuck cfg playFn s now (Or.inr hst)]
      exact ⟨List.Pairwise.nil, by simp [procCycles], le_refl _⟩
    · rw [procCycles_tick cfg playFn s now st hrun hst,
        tick_spec cfg playFn s now st hrun hst]
      have hpw : List.Pairwise (· < ·) (tickCycles cfg s st now) :=
        pairwise_cyclesToSchedule
      have hgt : ∀ c ∈ tickCycles cfg s st now, s.lastScheduledCycle < c :=
        fun c hc => cyclesToSchedule_gt_last hc
      have hb := wmAfter_bounds (tickCycles cfg s st now) s.lastScheduledCycle hpw hgt
      exact ⟨hpw, fun c hc => ⟨hgt c hc, hb.2 c hc⟩, hb.1⟩

theorem runTicks_inv (cfg : SchedulerConfig) (playFn : Nat → ℚ → Except Unit Unit) :
    ∀ (times : List ℚ) (s : SchedulerState),
    List.Pairwise (· < ·) (procCycles (runTicks cfg playFn s times).2) ∧
    (∀ c ∈ procCycles (runTicks cfg playFn s times).2,
      s.lastScheduledCycle < c ∧
        c ≤ (runTicks cfg playFn s times).1.lastScheduledCycle) ∧
    s.lastScheduledCycle ≤ (runTicks cfg playFn s times).1.lastScheduledCycle
  | [], s => ⟨List.Pairwise.nil, by simp [procCycles, runTicks], le_refl _⟩
  | t :: ts, s => by
    have h1 := tick_inv cfg playFn s t
    have h2 := runTicks_inv cfg playFn ts (tick cfg playFn s t).1
    have hsplit : runTicks cfg playFn s (t :: ts) =
        ((runTicks cfg playFn (tick cfg playFn s t).1 ts).1,
         (tick cfg playFn s t).2 ++
           (runTicks cfg playFn (tick cfg playFn s t).1 ts).2) := rfl
    rw [hsplit]
    simp only [procCycles_append]
    refine ⟨?_, ?_, le_trans h1.2.2 h2.2.2⟩
    · apply List.pairwise_append.mpr
      refine ⟨h1.1, h2.1, ?_⟩
      intro x hx y hy
      exact lt_of_le_of_lt ((h1.2.1 x hx).2) ((h2.2.1 y hy).1)
    · intro c hc
      rcases List.mem_append.mp hc with hc | hc
      · exact ⟨(h1.2.1 c hc).1, le_trans (h1.2.1 c hc).2 h2.2.2⟩
      · exact ⟨lt_of_le_of_lt h1.2.2 (h2.2.1 c hc).1, (h2.2.1 c hc).2⟩

/-! ### The claims -/

/-- C1: across any sequence of ticks of a running scheduler under a
monotonically non-decreasing clock, the processed cycle indices are
strictly increasing (hence no cycle index is ever processed twice), the
`lastScheduledCycle` watermark never decreases across a tick, and an
effective `start()` (a Stopped-to-Running transition) resets the
watermark to -1. -/
theorem C1_watermark_monotone_no_refire (cfg : SchedulerConfig)
    (playFn : Nat → ℚ → Except Unit Unit) (s : SchedulerState) (times : List ℚ)
    (hrun : s.isRunning = true) (hmono : List.Chain' (· ≤ ·) times) :
    List.Pairwise (· < ·) (procCycles (runTicks cfg playFn s times).2) ∧
    (procCycles (runTicks cfg playFn s times).2).Nodup ∧
    (∀ s' t, s'.lastScheduledCycle ≤ (tick cfg playFn s' t).1.lastScheduledCycle) ∧
    (∀ s' t, s'.isRunning = false → (startState s' t).lastScheduledCycle = -1) := by
  have h := runTicks_inv cfg playFn times s
  refine ⟨h.1, h.1.imp ne_of_lt, ?_, ?_⟩
  · intro s' t
    exact (tick_inv cfg playFn s' t).2.2
  · intro s' t h'
    simp [startState, h']

/-- Witness for C1 at a concrete running state and two tick times. -/
theorem C1_watermark_monotone_no_refire_witness :
    sampleState.isRunning = true ∧ List.Chain' (· ≤ ·) [(0 : ℚ), 1] ∧
    (List.Pairwise (· < ·)
        (procCycles (runTicks DEFAULT_CONFIG okPlay sampleState [(0 : ℚ), 1]).2) ∧
      (procCycles (runTicks DEFAULT_CONFIG okPlay sampleState [(0 : ℚ), 1]).2).Nodup ∧
      (∀ s' t, s'.lastScheduledCycle ≤
        (tick DEFAULT_CONFIG okPlay s' t).1.lastScheduledCycle) ∧
      (∀ s' t, s'.isRunning = false → (startState s' t).lastScheduledCycle = -1)) :=
  ⟨rfl, by norm_num [List.chain'_cons],
    C1_watermark_monotone_no_refire DEFAULT_CONFIG okPlay sampleState [0, 1] rfl
      (by norm_num [List.chain'_cons])⟩

/-- Elimination for membership in a tick's trace. -/
theorem mem_tick_trace {cfg : SchedulerConfig} {playFn : Nat → ℚ → Except Unit Unit}
    {s : SchedulerState} {now : ℚ} {a : Action}
    (hmem : a ∈ (tick cfg playFn s now).2) :
    ∃ st, s.isRunning = true ∧ s.startTime = some st ∧
      ∃ c ∈ tickCycles cfg s st now,
        a = Action.cycleCb c ∨ a ∈ scheduleHapsForCycle playFn s now c := by
  rcases hrun : s.isRunning with _ | _
  · rw [tick_stuck cfg playFn s now (Or.inl hrun)] at hmem
    simp at hmem
  · rcases hst : s.startTime with _ | st
    · rw [tick_stuck cfg playFn s now (Or.inr hst)] at hmem
      simp at hmem
    · rw [tick_spec cfg playFn s now st hrun hst] at hmem
      obtain ⟨c, hc, ha⟩ := List.mem_flatMap.mp hmem
      rcases List.mem_cons.mp ha with ha | ha
      · exact ⟨st, rfl, rfl, c, hc, Or.inl ha⟩
      · exact ⟨st, rfl, rfl, c, hc, Or.inr ha⟩

/-- Introduction for membership in a running tick's trace. -/
theorem mem_tick_trace_intro {cfg : SchedulerConfig}
    {playFn : Nat → ℚ → Except Unit Unit} {s : SchedulerState} {now st : ℚ}
    {c : ℤ} {a : Action} (hrun : s.isRunning = true) (hst : s.startTime = some st)
    (hc : c ∈ tickCycles cfg s st now)
    (ha : a ∈ scheduleHapsForCycle playFn s now c) :
    a ∈ (tick cfg playFn s now).2 := by
  rw [tick_spec cfg playFn s now st hrun hst]
  exact List.mem_flatMap.mpr ⟨c, hc, List.mem_cons.mpr (Or.inr ha)⟩

/-- C2: on a running tick, the set of per-cycle-callback cycle indices is
exactly the integer range from `⌊max(cyclePos(now), lastScheduledCycle + 1)⌋`
to `⌊cyclePos(now + lookahead)⌋` intersected with cycles above the
watermark; they are processed in strictly increasing order; the trace is a
concatenation, per cycle, of the per-cycle callback followed by that
cycle's event dispatches; and the watermark is assigned each processed
cycle in turn (so exactly once per cycle, ending at the last one). -/
theorem C2_tick_cycle_range (cfg : SchedulerConfig)
    (playFn : Nat → ℚ → Except Unit Unit) (s : SchedulerState) (now st : ℚ)
    (hrun : s.isRunning = true) (hst : s.startTime = some st) :
    (∀ c : ℤ, c ∈ procCycles (tick cfg playFn s now).2 ↔
      (⌊max ((now - st) * s.cps) ((s.lastScheduledCycle : ℚ) + 1)⌋ ≤ c ∧
       c ≤ ⌊(now + cfg.lookahead - st) * s.cps⌋ ∧ s.lastScheduledCycle < c)) ∧
    List.Pairwise (· < ·) (procCycles (tick cfg playFn s now).2) ∧
    (tick cfg playFn s now).2 =
      (procCycles (tick cfg playFn s now).2).flatMap
        (fun c => Action.cycleCb c :: scheduleHapsForCycle playFn s now c) ∧
    (tick cfg playFn s now).1 =
      { s with lastScheduledCycle :=
          wmAfter (procCycles (tick cfg playFn s now).2) s.lastScheduledCycle } := by
  have hpt := procCycles_tick cfg playFn s now st hrun hst
  have hts := tick_spec cfg playFn s now st hrun hst
  refine ⟨?_, ?_, ?_, ?_⟩
  · intro c
    rw [hpt]
    exact mem_cyclesToSchedule
  · rw [hpt]
    exact pairwise_cyclesToSchedule
  · rw [hpt, hts]
  · rw [hpt, hts]

/-- Witness for C2 at a concrete running state and clock reading. -/
theorem C2_tick_cycle_range_witness :
    sampleState.isRunning = true ∧ sampleState.startTime = some 0 ∧
    ((∀ c : ℤ, c ∈ procCycles (tick DEFAULT_CONFIG okPlay sampleState 1).2 ↔
      (⌊max (((1 : ℚ) - 0) * sampleState.cps)
          ((sampleState.lastScheduledCycle : ℚ) + 1)⌋ ≤ c ∧
       c ≤ ⌊((1 : ℚ) + DEFAULT_CONFIG.lookahead - 0) * sampleState.cps⌋ ∧
       sampleState.lastScheduledCycle < c)) ∧
    List.Pairwise (· < ·) (procCycles (tick DEFAULT_CONFIG okPlay sampleState 1).2) ∧
    (tick DEFAULT_CONFIG okPlay sampleState 1).2 =
      (procCycles (tick DEFAULT_CONFIG okPlay sampleState 1).2).flatMap
        (fun c => Action.cycleCb c :: scheduleHapsForCycle okPlay sampleState 1 c) ∧
    (tick DEFAULT_CONFIG okPlay sampleState 1).1 =
      { sampleState with lastScheduledCycle :=
          (wmAfter (procCycles (tick DEFAULT_CONFIG okPlay sampleState 1).2)
            sampleState.lastScheduledCycle) }) :=
  ⟨rfl, rfl, C2_tick_cycle_range DEFAULT_CONFIG okPlay sampleState 1 0 rfl rfl⟩

/-- C3: every per-event callback fired during cycle `c` carries the
absolute time `startTime + c / cps + relativeOnset * (1 / cps)`, where the
onset is `whole.begin` when the whole interval is present and `part.begin`
otherwise, and the onset is re-based by `- c` exactly when it lies in
`[c, c + 1)`; the play callback is invoked with the same time and the
event's payload. -/
theorem C3_event_time_formula (cfg : SchedulerConfig)
    (playFn : Nat → ℚ → Except Unit Unit) (s : SchedulerState) (now st : ℚ)
    (hap : RawHap) (t : ℚ) (c : ℤ) (hst : s.startTime = some st)
    (hmem : Action.hapCb hap t c ∈ (tick cfg playFn s now).2) :
    ∃ part, hap.part = some part ∧
      t = st + (c : ℚ) / s.cps +
        (if (c : ℚ) ≤ getHapOnset hap.whole part ∧
            getHapOnset hap.whole part < (c : ℚ) + 1
         then getHapOnset hap.whole part - (c : ℚ)
         else getHapOnset hap.whole part) * (1 / s.cps) ∧
      Action.play hap.value t ((playFn hap.value t).toBool) ∈
        (tick cfg playFn s now).2 := by
  obtain ⟨st', hrun, hst', c', hc', hshape | hsched⟩ := mem_tick_trace hmem
  · exact absurd hshape (by simp)
  obtain ⟨st'', hst'', kv, hkv, hs, hres, oh, hoh, hd⟩ :=
    mem_scheduleHapsForCycle hsched
  obtain ⟨hap', part, hoh', hpart, hnow, heq | heq⟩ := mem_dispatchHap hd
  · have hA : st' = st := Option.some_inj.mp (hst'.symm.trans hst)
    have hB : st'' = st := Option.some_inj.mp (hst''.symm.trans hst)
    subst hA
    subst hB
    injection heq with hhap ht hc
    subst hhap
    subst hc
    subst ht
    refine ⟨part, hpart, rfl, ?_⟩
    apply mem_tick_trace_intro hrun hst' hc'
    apply mem_scheduleHapsForCycle_intro hst' hkv hres hoh
    rw [hoh', dispatchHap_of_part playFn _ _ _ _ _ part hpart,
      if_neg (not_lt.mpr hnow)]
    simp
  · exact absurd heq (by simp)

/-- Witness for C3: with no lookahead, cps 1, anchor 0 and clock 0, the
sample hap's per-event callback fires at absolute time 0, which matches
the formula, and the play callback fires at the same time. -/
theorem C3_event_time_formula_witness :
    sampleState.startTime = some 0 ∧
    Action.hapCb sampleHap 0 0 ∈ (tick wCfg okPlay sampleState 0).2 ∧
    (∃ part, sampleHap.part = some part ∧
      (0 : ℚ) = 0 + ((0 : ℤ) : ℚ) / sampleState.cps +
        (if ((0 : ℤ) : ℚ) ≤ getHapOnset sampleHap.whole part ∧
            getHapOnset sampleHap.whole part < ((0 : ℤ) : ℚ) + 1
         then getHapOnset sampleHap.whole part - ((0 : ℤ) : ℚ)
         else getHapOnset sampleHap.whole part) * (1 / sampleState.cps) ∧
      Action.play sampleHap.value 0 ((okPlay sampleHap.value 0).toBool) ∈
        (tick wCfg okPlay sampleState 0).2) := by
  have ht : hapTimeOf (0 + ((0 : ℤ) : ℚ) / sampleState.cps) (1 / sampleState.cps)
      0 sampleHap ⟨0, 1⟩ = 0 := by
    norm_num [hapTimeOf, getHapOnset, sampleHap, sampleState]
  have hdisp : Action.hapCb sampleHap 0 0 ∈
      dispatchHap okPlay (0 + ((0 : ℤ) : ℚ) / sampleState.cps) (1 / sampleState.cps)
        0 0 (some sampleHap) := by
    rw [dispatchHap_of_part okPlay _ _ _ _ _ ⟨0, 1⟩ rfl, ht, if_neg (by norm_num)]
    simp
  have hc : (0 : ℤ) ∈ tickCycles wCfg sampleState 0 0 := by
    unfold tickCycles
    apply mem_cyclesToSchedule.mpr
    refine ⟨?_, ?_, by norm_num [sampleState]⟩
    · norm_num [sampleState]
    · norm_num [sampleState, wCfg]
  have hmem : Action.hapCb sampleHap 0 0 ∈ (tick wCfg okPlay sampleState 0).2 :=
    mem_tick_trace_intro rfl rfl hc
      (@mem_scheduleHapsForCycle_intro okPlay sampleState 0 0 0
        (Action.hapCb sampleHap 0 0) ("X", samplePattern) [some sampleHap]
        (some sampleHap) rfl (by simp [sampleState]) rfl (by simp) hdisp)
  exact ⟨rfl, hmem,
    C3_event_time_formula wCfg okPlay sampleState 0 0 sampleHap 0 0 rfl hmem⟩

/-- C4: every dispatched per-event callback and play invocation in a tick
carries a time at or after the clock reading used for the staleness test;
a hap whose computed absolute time is strictly before that reading is
dropped silently (no callback, no play, no error — the dispatch contributes
no action at all), and one whose time is at or after it is dispatched. -/
theorem C4_stale_event_drop (cfg : SchedulerConfig)
    (playFn : Nat → ℚ → Except Unit Unit) (s : SchedulerState) (now cst cd : ℚ)
    (c : ℤ) (hap : RawHap) (part : TimeSpan) (hpart : hap.part = some part) :
    (∀ hap' t c', Action.hapCb hap' t c' ∈ (tick cfg playFn s now).2 → now ≤ t) ∧
    (∀ v t ok, Action.play v t ok ∈ (tick cfg playFn s now).2 → now ≤ t) ∧
    (hapTimeOf cst cd c hap part < now →
      dispatchHap playFn cst cd now c (some hap) = []) ∧
    (now ≤ hapTimeOf cst cd c hap part →
      dispatchHap playFn cst cd now c (some hap) =
        [Action.hapCb hap (hapTimeOf cst cd c hap part) c,
         Action.play hap.value (hapTimeOf cst cd c hap part)
           ((playFn hap.value (hapTimeOf cst cd c hap part)).toBool)]) := by
  refine ⟨?_, ?_, ?_, ?_⟩
  · intro hap' t c' h
    obtain ⟨st, hrun, hst, cc, hcc, hshape | hsched⟩ := mem_tick_trace h
    · exact absurd hshape (by simp)
    obtain ⟨st', hst', kv, hkv, hs, hres, oh, hoh, hd⟩ :=
      mem_scheduleHapsForCycle hsched
    obtain ⟨hap2, part2, hoh', hpart2, hnow, heq | heq⟩ := mem_dispatchHap hd
    · injection heq with h1 h2 h3
      rw [h2]
      exact hnow
    · exact absurd heq (by simp)
  · intro v t ok h
    obtain ⟨st, hrun, hst, cc, hcc, hshape | hsched⟩ := mem_tick_trace h
    · exact absurd hshape (by simp)
    obtain ⟨st', hst', kv, hkv, hs, hres, oh, hoh, hd⟩ :=
      mem_scheduleHapsForCycle hsched
    obtain ⟨hap2, part2, hoh', hpart2, hnow, heq | heq⟩ := mem_dispatchHap hd
    · exact absurd heq (by simp)
    · injection heq with h1 h2 h3
      rw [h2]
      exact hnow
  · intro hlt
    rw [dispatchHap_of_part playFn cst cd now c hap part hpart, if_pos hlt]
  · intro hge
    rw [dispatchHap_of_part playFn cst cd now c hap part hpart,
      if_neg (not_lt.mpr hge)]

/-- Witness for C4 at the sample hap and a concrete clock reading. -/
theorem C4_stale_event_drop_witness :
    sampleHap.part = some ⟨0, 1⟩ ∧
    ((∀ hap' t c', Action.hapCb hap' t c' ∈ (tick wCfg okPlay sampleState 0).2 →
        (0 : ℚ) ≤ t) ∧
     (∀ v t ok, Action.play v t ok ∈ (tick wCfg okPlay sampleState 0).2 →
        (0 : ℚ) ≤ t) ∧
     (hapTimeOf 0 1 0 sampleHap ⟨0, 1⟩ < 0 →
        dispatchHap okPlay 0 1 0 0 (some sampleHap) = []) ∧
     ((0 : ℚ) ≤ hapTimeOf 0 1 0 sampleHap ⟨0, 1⟩ →
        dispatchHap okPlay 0 1 0 0 (some sampleHap) =
          [Action.hapCb sampleHap (hapTimeOf 0 1 0 sampleHap ⟨0, 1⟩) 0,
           Action.play sampleHap.value (hapTimeOf 0 1 0 sampleHap ⟨0, 1⟩)
             ((okPlay sampleHap.value (hapTimeOf 0 1 0 sampleHap ⟨0, 1⟩)).toBool)])) :=
  ⟨rfl, C4_stale_event_drop wCfg okPlay sampleState 0 0 1 0 sampleHap ⟨0, 1⟩ rfl⟩

/-! ### Exception isolation support -/

theorem eraseOk_dispatchHap (pf1 pf2 : Nat → ℚ → Except Unit Unit)
    (cst cd now : ℚ) (c : ℤ) (oh : Option RawHap) :
    (dispatchHap pf1 cst cd now c oh).map eraseOk =
      (dispatchHap pf2 cst cd now c oh).map eraseOk := by
  rcases oh with _ | hap
  · rfl
  · rcases hpart : hap.part with _ | part
    · rw [dispatchHap_no_part pf1 cst cd now c hap hpart,
        dispatchHap_no_part pf2 cst cd now c hap hpart]
    · rw [dispatchHap_of_part pf1 cst cd now c hap part hpart,
        dispatchHap_of_part pf2 cst cd now c hap part hpart]
      by_cases h : hapTimeOf cst cd c hap part < now
      · rw [if_pos h, if_pos h]
      · rw [if_neg h, if_neg h]
        rfl

theorem eraseOk_patternActions (pf1 pf2 : Nat → ℚ → Except Unit Unit)
    (cst cd now : ℚ) (c : ℤ) (p : Pattern) :
    (patternActions pf1 cst cd now c p).map eraseOk =
      (patternActions pf2 cst cd now c p).map eraseOk := by
  unfold patternActions
  rcases hres : resolveHaps c p with _ | hs
  · rfl
  · rw [List.map_flatMap, List.map_flatMap]
    have h : (fun oh => (dispatchHap pf1 cst cd now c oh).map eraseOk) =
        (fun oh => (dispatchHap pf2 cst cd now c oh).map eraseOk) :=
      funext (fun oh => eraseOk_dispatchHap pf1 pf2 cst cd now c oh)
    rw [h]

theorem eraseOk_scheduleHapsForCycle (pf1 pf2 : Nat → ℚ → Except Unit Unit)
    (s : SchedulerState) (now : ℚ) (c : ℤ) :
    (scheduleHapsForCycle pf1 s now c).map eraseOk =
      (scheduleHapsForCycle pf2 s now c).map eraseOk := by
  unfold scheduleHapsForCycle
  rcases hst : s.startTime with _ | st
  · rfl
  · rw [List.map_flatten, List.map_flatten, List.map_map, List.map_map]
    have h : (List.map eraseOk ∘ fun kv : String × Pattern =>
        patternActions pf1 (st + (c : ℚ) / s.cps) (1 / s.cps) now c kv.2) =
        (List.map eraseOk ∘ fun kv : String × Pattern =>
          patternActions pf2 (st + (c : ℚ) / s.cps) (1 / s.cps) now c kv.2) :=
      funext (fun kv => eraseOk_patternActions pf1 pf2 _ _ now c kv.2)
    rw [h]

/-- `scheduleHapsForCycle` on a state with replaced patterns, written over
the original state's fields. -/
theorem scheduleHapsForCycle_patterns (playFn : Nat → ℚ → Except Unit Unit)
    (s : SchedulerState) (now : ℚ) (c : ℤ) (P : Registry) :
    scheduleHapsForCycle playFn { s with patterns := P } now c =
      match s.startTime with
      | none => []
      | some st =>
        (P.map (fun kv =>
          patternActions playFn (st + (c : ℚ) / s.cps) (1 / s.cps) now c kv.2)).flatten :=
  rfl

theorem tickCycles_patterns (cfg : SchedulerConfig) (s : SchedulerState)
    (st now : ℚ) (P : Registry) :
    tickCycles cfg { s with patterns := P } st now = tickCycles cfg s st now := rfl

/-- C5: exception isolation. If a registered pattern's generator throws
for cycle `c`, that pattern contributes nothing for that cycle, while the
remaining patterns' dispatches for the cycle are exactly what they would
have been without the failing pattern; the cycle range a tick processes
and the resulting watermark do not depend on the patterns at all (so later
cycles of the tick still run and the watermark still advances); and a
throwing play callback changes no dispatch decision (the trace is
unchanged apart from the recorded outcome), one throwing registry callback
never prevents its siblings from being invoked. -/
theorem C5_generator_and_callback_isolation (cfg : SchedulerConfig)
    (playFn : Nat → ℚ → Except Unit Unit) (s : SchedulerState) (now : ℚ) (c : ℤ)
    (id : String) (p : Pattern) (f : ℤ → Except Unit (List (Option RawHap)))
    (P₁ P₂ : Registry) (hq : p.queryFn = some f) (herr : f c = Except.error ()) :
    (∀ cst cd : ℚ, patternActions playFn cst cd now c p = []) ∧
    scheduleHapsForCycle playFn { s with patterns := P₁ ++ (id, p) :: P₂ } now c =
      scheduleHapsForCycle playFn { s with patterns := P₁ ++ P₂ } now c ∧
    (∀ P : Registry,
      (tick cfg playFn { s with patterns := P } now).1.lastScheduledCycle =
        (tick cfg playFn s now).1.lastScheduledCycle ∧
      procCycles (tick cfg playFn { s with patterns := P } now).2 =
        procCycles (tick cfg playFn s now).2) ∧
    (∀ pf2 : Nat → ℚ → Except Unit Unit,
      ((tick cfg playFn s now).2).map eraseOk = ((tick cfg pf2 s now).2).map eraseOk ∧
      (tick cfg playFn s now).1 = (tick cfg pf2 s now).1) ∧
    (∀ (cbs : List (RawHap → Except Unit Unit)) (x : RawHap),
      (fireRegistry cbs x).length = cbs.length) := by
  have hnil : ∀ cst cd : ℚ, patternActions playFn cst cd now c p = [] := by
    intro cst cd
    unfold patternActions resolveHaps
    rw [hq]
    show (match (match f c with
          | Except.ok hs => some hs
          | Except.error _ => none) with
        | none => []
        | some hs => hs.flatMap (dispatchHap playFn cst cd now c)) = []
    rw [herr]
  refine ⟨hnil, ?_, ?_, ?_, ?_⟩
  · rw [scheduleHapsForCycle_patterns, scheduleHapsForCycle_patterns]
    rcases s.startTime with _ | st
    · rfl
    · show ((P₁ ++ (id, p) :: P₂).map (fun kv =>
          patternActions playFn (st + (c : ℚ) / s.cps) (1 / s.cps) now c kv.2)).flatten =
        ((P₁ ++ P₂).map (fun kv =>
          patternActions playFn (st + (c : ℚ) / s.cps) (1 / s.cps) now c kv.2)).flatten
      simp only [List.map_append, List.map_cons, List.flatten_append, List.flatten_cons]
      rw [show patternActions playFn (st + (c : ℚ) / s.cps) (1 / s.cps) now c
          (id, p).2 = [] from hnil _ _]
      rw [List.nil_append]
  · intro P
    rcases Bool.eq_false_or_eq_true s.isRunning with hrun | hrun
    · rcases Option.eq_none_or_eq_some s.startTime with hstc | ⟨st, hstc⟩
      · rw [tick_stuck cfg playFn s now (Or.inr hstc),
          tick_stuck cfg playFn { s with patterns := P } now (Or.inr hstc)]
        exact ⟨rfl, rfl⟩
      · constructor
        · rw [tick_spec cfg playFn s now st hrun hstc,
            tick_spec cfg playFn { s with patterns := P } now st hrun hstc]
          rfl
        · rw [procCycles_tick cfg playFn s now st hrun hstc,
            procCycles_tick cfg playFn { s with patterns := P } now st hrun hstc]
          rfl
    · rw [tick_stuck cfg playFn s now (Or.inl hrun),
        tick_stuck cfg playFn { s with patterns := P } now (Or.inl hrun)]
      exact ⟨rfl, rfl⟩
  · intro pf2
    rcases Bool.eq_false_or_eq_true s.isRunning with hrun | hrun
    · rcases Option.eq_none_or_eq_some s.startTime with hstc | ⟨st, hstc⟩
      · rw [tick_stuck cfg playFn s now (Or.inr hstc),
          tick_stuck cfg pf2 s now (Or.inr hstc)]
        exact ⟨rfl, rfl⟩
      · rw [tick_spec cfg playFn s now st hrun hstc,
          tick_spec cfg pf2 s now st hrun hstc]
        refine ⟨?_, rfl⟩
        rw [List.map_flatMap, List.map_flatMap]
        have h : (fun cc => (Action.cycleCb cc ::
            scheduleHapsForCycle playFn s now cc).map eraseOk) =
            (fun cc => (Action.cycleCb cc ::
              scheduleHapsForCycle pf2 s now cc).map eraseOk) := by
          funext cc
          rw [List.map_cons, List.map_cons, eraseOk_scheduleHapsForCycle]
        rw [h]
    · rw [tick_stuck cfg playFn s now (Or.inl hrun),
        tick_stuck cfg pf2 s now (Or.inl hrun)]
      exact ⟨rfl, rfl⟩
  · intro cbs x
    exact List.length_map cbs _

/-- Witness for C5 with a concrete always-throwing generator registered
alongside the sample pattern. -/
theorem C5_generator_and_callback_isolation_witness :
    failPattern.queryFn = some failQuery ∧ failQuery 0 = Except.error () ∧
    ((∀ cst cd : ℚ, patternActions okPlay cst cd 0 0 failPattern = []) ∧
     scheduleHapsForCycle okPlay
         { sampleState with patterns := [] ++ ("bad", failPattern) :: [("X", samplePattern)] } 0 0 =
       scheduleHapsForCycle okPlay
         { sampleState with patterns := [] ++ [("X", samplePattern)] } 0 0 ∧
     (∀ P : Registry,
       (tick wCfg okPlay { sampleState with patterns := P } 0).1.lastScheduledCycle =
         (tick wCfg okPlay sampleState 0).1.lastScheduledCycle ∧
       procCycles (tick wCfg okPlay { sampleState with patterns := P } 0).2 =
         procCycles (tick wCfg okPlay sampleState 0).2) ∧
     (∀ pf2 : Nat → ℚ → Except Unit Unit,
       ((tick wCfg okPlay sampleState 0).2).map eraseOk =
         ((tick wCfg pf2 sampleState 0).2).map eraseOk ∧
       (tick wCfg okPlay sampleState 0).1 = (tick wCfg pf2 sampleState 0).1) ∧
     (∀ (cbs : List (RawHap → Except Unit Unit)) (x : RawHap),
       (fireRegistry cbs x).length = cbs.length)) :=
  ⟨rfl, rfl,
    C5_generator_and_callback_isolation wCfg okPlay sampleState 0 0 "bad"
      failPattern failQuery [] [("X", samplePattern)] rfl rfl⟩

/-! ### Registry lookup lemmas -/

theorem mapGet_mapReplace_self (id : String) (p : Pattern) :
    ∀ ps : Registry, ps.any (fun kv => kv.1 = id) = true →
    mapGet (ps.map (fun kv => if kv.1 = id then (id, p) else kv)) id = some p
  | [], h => by simp at h
  | (k, v) :: tl, h => by
    by_cases hk : k = id
    · rw [List.map_cons, if_pos hk]
      unfold mapGet
      rw [List.find?_cons_of_pos _ (by simp)]
      rfl
    · rw [List.map_cons, if_neg hk]
      have htl : tl.any (fun kv => kv.1 = id) = true := by
        rcases List.any_eq_true.mp h with ⟨kv, hkv, hkv1⟩
        rcases List.mem_cons.mp hkv with rfl | hkv
        · exact absurd (of_decide_eq_true hkv1) hk
        · exact List.any_eq_true.mpr ⟨kv, hkv, hkv1⟩
      have ih := mapGet_mapReplace_self id p tl htl
      unfold mapGet at ih ⊢
      rw [List.find?_cons_of_neg _ (by simp [hk])]
      exact ih

theorem mapGet_mapReplace_ne (id k : String) (p : Pattern) (hne : k ≠ id) :
    ∀ ps : Registry,
    mapGet (ps.map (fun kv => if kv.1 = id then (id, p) else kv)) k = mapGet ps k
  | [] => rfl
  | (k0, v) :: tl => by
    have ih := mapGet_mapReplace_ne id k p hne tl
    by_cases hk0 : k0 = id
    · rw [List.map_cons, if_pos hk0]
      unfold mapGet at ih ⊢
      rw [List.find?_cons_of_neg _ (by simp [Ne.symm hne]),
        List.find?_cons_of_neg _ (by simp [hk0 ▸ Ne.symm hne])]
      exact ih
    · rw [List.map_cons, if_neg hk0]
      by_cases hk : k0 = k
      · unfold mapGet
        rw [List.find?_cons_of_pos _ (by simp [hk]),
          List.find?_cons_of_pos _ (by simp [hk])]
      · unfold mapGet at ih ⊢
        rw [List.find?_cons_of_neg _ (by simp [hk]),
          List.find?_cons_of_neg _ (by simp [hk])]
        exact ih

theorem mapGet_mapSet_self (ps : Registry) (id : String) (p : Pattern) :
    mapGet (mapSet ps id p) id = some p := by
  unfold mapSet
  by_cases h : ps.any (fun kv => kv.1 = id) = true
  · rw [if_pos h]
    exact mapGet_mapReplace_self id p ps h
  · rw [if_neg h]
    unfold mapGet
    rw [List.find?_append]
    have h1 : ps.find? (fun kv => kv.1 = id) = none := by
      rw [List.find?_eq_none]
      intro kv hkv hdec
      exact h (List.any_eq_true.mpr ⟨kv, hkv, hdec⟩)
    rw [h1]
    simp

theorem mapGet_mapSet_ne (ps : Registry) (id k : String) (p : Pattern)
    (hne : k ≠ id) : mapGet (mapSet ps id p) k = mapGet ps k := by
  unfold mapSet
  by_cases h : ps.any (fun kv => kv.1 = id) = true
  · rw [if_pos h]
    exact mapGet_mapReplace_ne id k p hne ps
  · rw [if_neg h]
    unfold mapGet
    rw [List.find?_append]
    have h1 : List.find? (fun kv => kv.1 = k) [(id, p)] = none := by
      rw [List.find?_eq_none]
      intro kv hkv hdec
      rcases List.mem_singleton.mp hkv with rfl
      exact hne (of_decide_eq_true hdec).symm
    rw [h1, Option.or_none]

/-- C6: `schedulePattern(id, content)` throws exactly when the id is
empty or the content is neither an array nor a function; a throw leaves
the registry untouched (the error carries no new registry); valid content
is registered under the id, silently overwriting any existing entry and
leaving other ids unchanged; and `updatePattern` is the same operation as
`schedulePattern` on all inputs. -/
theorem C6_schedulePattern_validation (ps : Registry) (id : String)
    (content : PatternInput) :
    ((∃ msg, schedulePattern ps id content = Except.error msg) ↔
      (id = "" ∨ content = PatternInput.other)) ∧
    (∀ f, id ≠ "" → content = PatternInput.fn f →
      schedulePattern ps id content = Except.ok (mapSet ps id ⟨some f, none⟩)) ∧
    (∀ hs, id ≠ "" → content = PatternInput.arr hs →
      schedulePattern ps id content = Except.ok (mapSet ps id ⟨none, some hs⟩)) ∧
    (∀ p, mapGet (mapSet ps id p) id = some p) ∧
    (∀ p k, k ≠ id → mapGet (mapSet ps id p) k = mapGet ps k) ∧
    updatePattern ps id content = schedulePattern ps id content := by
  refine ⟨?_, ?_, ?_, fun p => mapGet_mapSet_self ps id p,
    fun p k h => mapGet_mapSet_ne ps id k p h, rfl⟩
  · by_cases hid : id = ""
    · simp [schedulePattern, hid]
    · rcases content with f | hs | _ <;> simp [schedulePattern, hid]
  · intro f hid hc
    subst hc
    simp [schedulePattern, hid]
  · intro hs hid hc
    subst hc
    simp [schedulePattern, hid]

/-- Witness for C6 at a concrete registry and contents. -/
theorem C6_schedulePattern_validation_witness :
    ((∃ msg, schedulePattern [] "X" (PatternInput.arr [some sampleHap]) =
        Except.error msg) ↔
      (("X" : String) = "" ∨
        PatternInput.arr [some sampleHap] = PatternInput.other)) ∧
    (∀ f, ("X" : String) ≠ "" →
      PatternInput.arr [some sampleHap] = PatternInput.fn f →
      schedulePattern [] "X" (PatternInput.arr [some sampleHap]) =
        Except.ok (mapSet [] "X" ⟨some f, none⟩)) ∧
    (∀ hs, ("X" : String) ≠ "" →
      PatternInput.arr [some sampleHap] = PatternInput.arr hs →
      schedulePattern [] "X" (PatternInput.arr [some sampleHap]) =
        Except.ok (mapSet [] "X" ⟨none, some hs⟩)) ∧
    (∀ p, mapGet (mapSet [] "X" p) "X" = some p) ∧
    (∀ p k, k ≠ "X" → mapGet (mapSet [] "X" p) k = mapGet [] k) ∧
    updatePattern [] "X" (PatternInput.arr [some sampleHap]) =
      schedulePattern [] "X" (PatternInput.arr [some sampleHap]) :=
  C6_schedulePattern_validation [] "X" (PatternInput.arr [some sampleHap])

/-- C7: `setCps` rejects every non-positive value with a thrown error and
leaves the stored cps readable and unchanged; it accepts every positive
value, after which `getCps` returns it. -/
theorem C7_setCps_validation (s : SchedulerState) (x y : ℚ) (hx : x ≤ 0)
    (hy : 0 < y) :
    setCps s x = Except.error "CPS must be positive" ∧
    getCps (afterSetCps s x) = getCps s ∧
    setCps s y = Except.ok { s with cps := y } ∧
    getCps (afterSetCps s y) = y := by
  have hxe : setCps s x = Except.error "CPS must be positive" := by
    unfold setCps
    rw [if_pos hx]
  have hye : setCps s y = Except.ok { s with cps := y } := by
    unfold setCps
    rw [if_neg (not_le.mpr hy)]
  refine ⟨hxe, ?_, hye, ?_⟩
  · unfold afterSetCps
    rw [hxe]
  · unfold afterSetCps
    rw [hye]
    rfl

/-- Witness for C7: rejected 0, accepted 2. -/
theorem C7_setCps_validation_witness :
    (0 : ℚ) ≤ 0 ∧ (0 : ℚ) < 2 ∧
    (setCps sampleState 0 = Except.error "CPS must be positive" ∧
     getCps (afterSetCps sampleState 0) = getCps sampleState ∧
     setCps sampleState 2 = Except.ok { sampleState with cps := 2 } ∧
     getCps (afterSetCps sampleState 2) = 2) :=
  ⟨le_refl 0, by norm_num, C7_setCps_validation sampleState 0 2 (le_refl 0) (by norm_num)⟩

/-- C8: while not running — freshly constructed or after `stop()` — the
current cycle position reads as exactly 0 and the cycle number as 0;
while running, the position is `(clockNow - startTime) * cps` with no
clamping and the cycle number is its floor. -/
theorem C8_getCurrentCycle_spec (cfg : SchedulerConfig) (s : SchedulerState)
    (clockNow st : ℚ) :
    (s.isRunning = false →
      getCurrentCycle s clockNow = 0 ∧ getCurrentCycleNumber s clockNow = 0) ∧
    (getCurrentCycle (initialState cfg) clockNow = 0 ∧
      getCurrentCycleNumber (initialState cfg) clockNow = 0) ∧
    (getCurrentCycle (stopState s) clockNow = 0 ∧
      getCurrentCycleNumber (stopState s) clockNow = 0) ∧
    (s.isRunning = true → s.startTime = some st →
      getCurrentCycle s clockNow = (clockNow - st) * s.cps ∧
      getCurrentCycleNumber s clockNow = ⌊(clockNow - st) * s.cps⌋) := by
  have hstopped : ∀ s' : SchedulerState, s'.isRunning = false →
      getCurrentCycle s' clockNow = 0 ∧ getCurrentCycleNumber s' clockNow = 0 := by
    intro s' h
    have h0 : getCurrentCycle s' clockNow = 0 := by
      unfold getCurrentCycle
      rw [h]
    exact ⟨h0, by unfold getCurrentCycleNumber; rw [h0]; exact Int.floor_zero⟩
  refine ⟨hstopped s, hstopped _ rfl, ?_, ?_⟩
  · apply hstopped
    unfold stopState
    rcases Bool.eq_false_or_eq_true s.isRunning with hrun | hrun
    · rw [if_pos hrun]
    · rw [if_neg (by rw [hrun]; exact Bool.false_ne_true)]
      exact hrun
  · intro hrun hst
    have h0 : getCurrentCycle s clockNow = (clockNow - st) * s.cps := by
      unfold getCurrentCycle
      rw [hrun, hst]
    exact ⟨h0, by unfold getCurrentCycleNumber; rw [h0]⟩

/-- Witness for C8 on the running sample state and a stopped state. -/
theorem C8_getCurrentCycle_spec_witness :
    sampleState.isRunning = true ∧ sampleState.startTime = some 0 ∧
    ((sampleState.isRunning = false →
      getCurrentCycle sampleState 3 = 0 ∧ getCurrentCycleNumber sampleState 3 = 0) ∧
     (getCurrentCycle (initialState DEFAULT_CONFIG) 3 = 0 ∧
      getCurrentCycleNumber (initialState DEFAULT_CONFIG) 3 = 0) ∧
     (getCurrentCycle (stopState sampleState) 3 = 0 ∧
      getCurrentCycleNumber (stopState sampleState) 3 = 0) ∧
     (sampleState.isRunning = true → sampleState.startTime = some 0 →
      getCurrentCycle sampleState 3 = ((3 : ℚ) - 0) * sampleState.cps ∧
      getCurrentCycleNumber sampleState 3 = ⌊((3 : ℚ) - 0) * sampleState.cps⌋)) :=
  ⟨rfl, rfl, C8_getCurrentCycle_spec DEFAULT_CONFIG sampleState 3 0⟩

/-- C9: the bpm/cps conversions are the fixed 4-beats-per-cycle linear
maps `bpm = cps * 240` and `cps = bpm / 240`, and they are exact inverses
of each other on positive inputs. -/
theorem C9_bpm_cps_roundtrip (bpm cps : ℚ) (hb : 0 < bpm) (hc : 0 < cps) :
    cpsToBpm (bpmToCps bpm) = bpm ∧ bpmToCps (cpsToBpm cps) = cps ∧
    cpsToBpm cps = cps * 240 ∧ bpmToCps bpm = bpm / 240 := by
  unfold cpsToBpm bpmToCps
  refine ⟨by ring, by ring, by ring, ?_⟩
  rw [div_div]
  norm_num

/-- Witness for C9 at bpm 120 and cps 1/2. -/
theorem C9_bpm_cps_roundtrip_witness :
    (0 : ℚ) < 120 ∧ (0 : ℚ) < 1/2 ∧
    (cpsToBpm (bpmToCps 120) = 120 ∧ bpmToCps (cpsToBpm (1/2)) = 1/2 ∧
     cpsToBpm (1/2) = (1/2 : ℚ) * 240 ∧ bpmToCps 120 = (120 : ℚ) / 240) :=
  ⟨by norm_num, by norm_num, C9_bpm_cps_roundtrip 120 (1/2) (by norm_num) (by norm_num)⟩

/-- C10: `schedulePattern` accepts any array (with a non-empty id) without
inspecting its elements; the TS dispatch loop silently skips null entries
and entries without a `part`; the JS dispatch loop silently skips null
entries and entries without a numeric `start`; hence a static pattern
whose events use the spec's `{start, params}` shape produces zero
dispatches under the Hap-based scheduler. -/
theorem C10_spec_shaped_events_silent (ps : Registry) (id : String)
    (hs : List (Option RawHap)) (hid : id ≠ "") :
    schedulePattern ps id (PatternInput.arr hs) =
      Except.ok (mapSet ps id ⟨none, some hs⟩) ∧
    (∀ (playFn : Nat → ℚ → Except Unit Unit) (cst cd now : ℚ) (c : ℤ),
      dispatchHap playFn cst cd now c none = [] ∧
      (∀ hap : RawHap, hap.part = none →
        dispatchHap playFn cst cd now c (some hap) = [])) ∧
    (∀ (cst cd now : ℚ) (c : ℤ),
      jsDispatchEvent cst cd now c none = [] ∧
      (∀ e : JsEvent, e.start = none → jsDispatchEvent cst cd now c (some e) = [])) ∧
    (∀ (playFn : Nat → ℚ → Except Unit Unit) (cst cd now : ℚ) (c : ℤ)
       (events : List SpecEvent),
      patternActions playFn cst cd now c
        ⟨none, some (events.map (fun e => some (rawHapOfSpecEvent e)))⟩ = []) := by
  refine ⟨?_, ?_, ?_, ?_⟩
  · simp [schedulePattern, hid]
  · intro playFn cst cd now c
    refine ⟨rfl, fun hap h => dispatchHap_no_part playFn cst cd now c hap h⟩
  · intro cst cd now c
    refine ⟨rfl, fun e h => ?_⟩
    rcases e with ⟨s0, v⟩
    obtain rfl : s0 = none := h
    rfl
  · intro playFn cst cd now c events
    unfold patternActions resolveHaps
    show ((events.map (fun e => some (rawHapOfSpecEvent e))).flatMap
      (dispatchHap playFn cst cd now c)) = []
    rw [List.flatMap_eq_nil_iff]
    intro xs hxs
    obtain ⟨oh, hoh, rfl⟩ := List.mem_map.mp hxs
    exact dispatchHap_no_part playFn cst cd now c _ rfl

/-- Witness for C10 at a concrete array of spec-shaped events. -/
theorem C10_spec_shaped_events_silent_witness :
    ("p" : String) ≠ "" ∧
    (schedulePattern [] "p" (PatternInput.arr [some (rawHapOfSpecEvent ⟨0, 7⟩)]) =
      Except.ok (mapSet [] "p" ⟨none, some [some (rawHapOfSpecEvent ⟨0, 7⟩)]⟩) ∧
    (∀ (playFn : Nat → ℚ → Except Unit Unit) (cst cd now : ℚ) (c : ℤ),
      dispatchHap playFn cst cd now c none = [] ∧
      (∀ hap : RawHap, hap.part = none →
        dispatchHap playFn cst cd now c (some hap) = [])) ∧
    (∀ (cst cd now : ℚ) (c : ℤ),
      jsDispatchEvent cst cd now c none = [] ∧
      (∀ e : JsEvent, e.start = none → jsDispatchEvent cst cd now c (some e) = [])) ∧
    (∀ (playFn : Nat → ℚ → Except Unit Unit) (cst cd now : ℚ) (c : ℤ)
       (events : List SpecEvent),
      patternActions playFn cst cd now c
        ⟨none, some (events.map (fun e => some (rawHapOfSpecEvent e)))⟩ = [])) :=
  ⟨by simp,
    C10_spec_shaped_events_silent [] "p" [some (rawHapOfSpecEvent ⟨0, 7⟩)] (by simp)⟩

end Waveform
